import Mathlib

/-!
Shallow embedding of the ledger and approval workflow of `src/main.py`
(a Telegram bot for account trading and balance management).

Monetary amounts are modelled as rationals (`ℚ`); the Python source uses
floats, which we idealise as exact arithmetic.  The in-memory `user_data`
dict is modelled as an association list from user-id strings to `Account`
records; dict lookup takes the first matching key and dict update rewrites
every matching entry (keys are unique in the source, so the two coincide).
Each `async` handler becomes a pure state-transition function on the
ledger; the `user_data_lock` critical sections become single applications
of those functions.
-/

namespace BGT

/-- Status of one sale record, as stored in `processing_details`. -/
inductive SaleStatus
  | Processing
  | Successful
  | Reject
deriving DecidableEq

/-- One entry of an account's `processing_details` list (a SaleRecord):
number, price, status, country, as appended by `confirm_otp_callback`. -/
structure SaleRecord where
  number : String
  price : ℚ
  status : SaleStatus
  country : String
deriving DecidableEq

/-- One user record of the `user_data` dict in `src/main.py`. -/
structure Account where
  main_balance_usdt : ℚ
  hold_balance_usdt : ℚ
  topup_balance_usdt : ℚ
  withdrawal_processing_balance : ℚ
  accounts_sold : ℕ
  sold_numbers : List String
  processing_details : List SaleRecord
  referrer_id : Option String
  referrals : List String
  referral_earnings : ℚ
deriving DecidableEq

/-- The in-memory `user_data` dict: user-id keyed association list. -/
abbrev Ledger := List (String × Account)

/-- The zeroed record created by `get_user_data` on first access. -/
def defaultAccount : Account :=
  { main_balance_usdt := 0
    hold_balance_usdt := 0
    topup_balance_usdt := 0
    withdrawal_processing_balance := 0
    accounts_sold := 0
    sold_numbers := []
    processing_details := []
    referrer_id := none
    referrals := []
    referral_earnings := 0 }

/-- Dict lookup: `user_data[uid]` (first matching key). -/
def assocLookup : Ledger → String → Option Account
  | [], _ => none
  | (k, v) :: es, uid => if k = uid then some v else assocLookup es uid

/-- Dict update: apply `f` to the entry stored under `uid`. -/
def updAcct : Ledger → String → (Account → Account) → Ledger
  | [], _, _ => []
  | (k, v) :: es, uid, f =>
    (if k = uid then (k, f v) else (k, v)) :: updAcct es uid f

/-- Model of `get_user_data`'s ledger effect: create a zeroed record when `uid` is
missing (timestamps and legacy-field migration are not modelled). -/
def get_user_data (ud : Ledger) (uid : String) : Ledger :=
  match assocLookup ud uid with
  | some _ => ud
  | none => (uid, defaultAccount) :: ud

/-- The fixed operator identity `ADMIN_CHAT_ID` of `src/main.py`. -/
def ADMIN_CHAT_ID : String := "5810613583"

/-! ### Policy engine (withdrawal limits) -/

/-- Configuration dict `withdrawal_settings`. -/
structure WithdrawalSettings where
  global_limit : ℚ
  user_limits : List (String × ℚ)
  bot_active : Bool

/-- Lookup in the per-user custom-limit table. -/
def limitLookup : List (String × ℚ) → String → Option ℚ
  | [], _ => none
  | (k, v) :: es, uid => if k = uid then some v else limitLookup es uid

/-- The static `METHOD_WITHDRAWAL_LIMITS` table. -/
def METHOD_WITHDRAWAL_LIMITS : List (String × ℚ) :=
  [("bank", 5), ("paypal", 2), ("upi", 1/5), ("cashapp", 1000),
   ("bitcoin", 100), ("bep20", 20), ("trc20", 70), ("binance", 25),
   ("payeer", 30)]

/-- Model of `get_method_withdrawal_limit`: table lookup, default 1.0. -/
def get_method_withdrawal_limit (method : String) : ℚ :=
  (limitLookup METHOD_WITHDRAWAL_LIMITS method).getD 1

/-- Model of `get_user_withdrawal_limit`: custom per-user limit if set; else 3.0
when the balance is within 0.01 of 1.0; else the global limit. -/
def get_user_withdrawal_limit (ws : WithdrawalSettings) (user_id : String)
    (user_balance : ℚ) : ℚ :=
  match limitLookup ws.user_limits user_id with
  | some l => l
  | none => if |user_balance - 1| < 1/100 then 3 else ws.global_limit

/-- Model of `get_combined_withdrawal_limit`: max of method and user limits. -/
def get_combined_withdrawal_limit (ws : WithdrawalSettings) (user_id : String)
    (user_balance : ℚ) (method : String) : ℚ :=
  max (get_method_withdrawal_limit method)
    (get_user_withdrawal_limit ws user_id user_balance)

/-! ### Number submission (`handle_number_input`) -/

/-- Membership scan over one `sold_numbers` list. -/
def soldNumbersHas : List String → String → Bool
  | [], _ => false
  | n :: ns, number => if n = number then true else soldNumbersHas ns number

/-- The global scan `for u_id, u_data in user_data.items(): if number in
u_data['sold_numbers']` of `handle_number_input`. -/
def numberSoldAnywhere : Ledger → String → Bool
  | [], _ => false
  | (_, a) :: es, number =>
    if soldNumbersHas a.sold_numbers number then true
    else numberSoldAnywhere es number

/-- Python's `str.isdigit`: nonempty and all characters digits. -/
def pyIsDigit (s : String) : Bool :=
  !s.data.isEmpty && s.data.all Char.isDigit

/-- Outcome of a number submission. -/
inductive NumberResult
  | alreadySold
  | invalidFormat
  | accepted
deriving DecidableEq

/-- Model of `handle_number_input`'s decision: global non-reuse scan first, then the
digits-only / length-7-to-14 format check; on success the operator is sent
an approval request.  The handler never mutates the ledger. -/
def handle_number_input (ud : Ledger) (number : String) : NumberResult :=
  if numberSoldAnywhere ud number then .alreadySold
  else if !(pyIsDigit number) || number.length < 7 || 14 < number.length then
    .invalidFormat
  else .accepted

/-! ### Withdrawal amount (`handle_withdraw_amount`) -/

/-- Transient per-conversation withdrawal context
(`context.user_data['withdraw_method' / 'withdraw_address']`). -/
structure ConvCtx where
  withdraw_method : Option String
  withdraw_address : Option String
deriving DecidableEq

/-- Result of `context.user_data.clear()`. -/
def clearedCtx : ConvCtx := ⟨none, none⟩

/-- Outcome of a withdrawal amount submission. -/
inductive WithdrawResult
  | belowMin
  | insufficient
  | ok
deriving DecidableEq

/-- Model of `handle_withdraw_amount`: reject below the floor of 10 or above the
main balance (discarding the transient context); otherwise atomically move
`amount` from `main_balance_usdt` to `withdrawal_processing_balance`.
The source clears the conversation context on every exit path. -/
def handle_withdraw_amount (ud : Ledger) (ctx : ConvCtx) (uid : String)
    (amount : ℚ) : Ledger × ConvCtx × WithdrawResult :=
  let ud1 := get_user_data ud uid
  let info := (assocLookup ud1 uid).getD defaultAccount
  if amount < 10 then (ud1, clearedCtx, .belowMin)
  else if info.main_balance_usdt < amount then (ud1, clearedCtx, .insufficient)
  else
    (updAcct ud1 uid fun a =>
      { a with
        main_balance_usdt := a.main_balance_usdt - amount
        withdrawal_processing_balance :=
          a.withdrawal_processing_balance + amount },
     clearedCtx, .ok)

/-! ### Sale workflow callbacks -/

/-- Model of `confirm_otp_callback`'s ledger effect: create the record if missing,
append a `Processing` SaleRecord, credit `hold_balance_usdt += price`,
bump `accounts_sold` and append the number to `sold_numbers`.
The handler performs no operator-identity check. -/
def confirm_otp_callback (_actorId : String) (ud : Ledger) (uid : String)
    (price : ℚ) (number country : String) : Ledger :=
  let ud1 := get_user_data ud uid
  updAcct ud1 uid fun a =>
    { a with
      processing_details :=
        a.processing_details ++ [⟨number, price, .Processing, country⟩]
      hold_balance_usdt := a.hold_balance_usdt + price
      accounts_sold := a.accounts_sold + 1
      sold_numbers := a.sold_numbers ++ [number] }

/-- The `for entry in processing_details: if entry['number'] == number:
entry['status'] = st; break` loop: set the first matching record's status. -/
def setStatusFirst : List SaleRecord → String → SaleStatus → List SaleRecord
  | [], _, _ => []
  | r :: rs, number, st =>
    if r.number = number then { r with status := st } :: rs
    else r :: setStatusFirst rs number st

/-- Whether some record with this number exists. -/
def hasRecord (l : List SaleRecord) (number : String) : Bool :=
  match l with
  | [] => false
  | r :: rs => if r.number = number then true else hasRecord rs number

/-- The post-lock notify-section loop of the final callbacks: set the first
matching record's status, or append a fresh record (country `"N/A"`) when
none matches. -/
def upsertStatus (l : List SaleRecord) (number : String) (price : ℚ)
    (st : SaleStatus) : List SaleRecord :=
  if hasRecord l number then setStatusFirst l number st
  else l ++ [⟨number, price, st, "N/A"⟩]

/-- Status of the first record with this number, if any. -/
def statusOf (l : List SaleRecord) (number : String) : Option SaleStatus :=
  match l with
  | [] => none
  | r :: rs => if r.number = number then some r.status else statusOf rs number

/-- Outcome of `final_approve_callback`. -/
inductive FinalApproveResult
  | noUser
  | notEnoughHold
  | ok
deriving DecidableEq

/-- Model of `final_approve_callback`: if the user exists, mark the matching record
`Successful`, then — when `hold_balance_usdt >= price` — move `price` from
hold to main inside the same critical section; the notify section then
re-asserts (or appends) the `Successful` record.  The handler performs no
operator-identity check: `_actorId` is never consulted. -/
def final_approve_callback (_actorId : String) (ud : Ledger) (uid : String)
    (price : ℚ) (number : String) : Ledger × FinalApproveResult :=
  match assocLookup ud uid with
  | none => (ud, .noUser)
  | some a =>
    let ud1 := updAcct ud uid fun b =>
      { b with processing_details :=
          setStatusFirst b.processing_details number .Successful }
    if price ≤ a.hold_balance_usdt then
      let ud2 := updAcct ud1 uid fun b =>
        { b with
          hold_balance_usdt := b.hold_balance_usdt - price
          main_balance_usdt := b.main_balance_usdt + price }
      let ud3 := updAcct ud2 uid fun b =>
        { b with processing_details :=
            upsertStatus b.processing_details number price .Successful }
      (ud3, .ok)
    else (ud1, .notEnoughHold)

/-- Model of `final_reject_callback`: mark the matching record `Reject`, debit
`hold_balance_usdt -= price` when covered (else only log a warning), then
the notify section re-asserts (or appends) the `Reject` record.  No funds
are credited anywhere.  The handler performs no operator-identity check. -/
def final_reject_callback (_actorId : String) (ud : Ledger) (uid : String)
    (price : ℚ) (number : String) : Ledger :=
  match assocLookup ud uid with
  | none => ud
  | some a =>
    let ud1 := updAcct ud uid fun b =>
      { b with processing_details :=
          setStatusFirst b.processing_details number .Reject }
    let ud2 :=
      if price ≤ a.hold_balance_usdt then
        updAcct ud1 uid fun b =>
          { b with hold_balance_usdt := b.hold_balance_usdt - price }
      else ud1
    updAcct ud2 uid fun b =>
      { b with processing_details :=
          upsertStatus b.processing_details number price .Reject }

/-- Outcome of `approve_callback`. -/
inductive ApproveResult
  | accessDenied
  | notFound
  | insufficientHold
  | ok
deriving DecidableEq

/-- Model of `approve_callback` (operator settlement token): checks the
operator identity, moves `amount` from hold to main, and pays the 3%
referral commission to an existing referrer's `main_balance_usdt` and
`referral_earnings` inside the same critical section. -/
def approve_callback (actorId : String) (ud : Ledger) (uid : String)
    (amount : ℚ) : Ledger × ApproveResult :=
  if actorId ≠ ADMIN_CHAT_ID then (ud, .accessDenied)
  else
    match assocLookup ud uid with
    | none => (ud, .notFound)
    | some a =>
      if amount ≤ a.hold_balance_usdt then
        let ud1 := updAcct ud uid fun b =>
          { b with
            hold_balance_usdt := b.hold_balance_usdt - amount
            main_balance_usdt := b.main_balance_usdt + amount }
        let ud2 :=
          match a.referrer_id with
          | none => ud1
          | some rid =>
            if rid ≠ "" ∧ (assocLookup ud1 rid).isSome then
              updAcct ud1 rid fun r =>
                { r with
                  main_balance_usdt :=
                    r.main_balance_usdt + amount * (3/100)
                  referral_earnings :=
                    r.referral_earnings + amount * (3/100) }
            else ud1
        (ud2, .ok)
      else (ud, .insufficientHold)

/-! ### `/start` and the referral signup bonus -/

/-- Model of `start`'s ledger effect: lazily create the account, then — when the
start payload carried `ref_<rid>` with `rid` nonempty and distinct from the
user, the user's `referrer_id` is still unset and the referrer exists —
set `referrer_id`, and, if the user is not yet in the referrer's
`referrals`, append it and pay the flat 0.04 signup bonus to the
referrer's `main_balance_usdt` and `referral_earnings`. -/
def start (ud : Ledger) (uid : String) (refParam : Option String) : Ledger :=
  let ud1 := get_user_data ud uid
  match refParam with
  | none => ud1
  | some rid =>
    if rid ≠ "" ∧ rid ≠ uid then
      match assocLookup ud1 uid with
      | none => ud1
      | some b =>
        if b.referrer_id = none then
          match assocLookup ud1 rid with
          | none => ud1
          | some r =>
            let ud2 := updAcct ud1 uid fun x => { x with referrer_id := some rid }
            if uid ∈ r.referrals then ud2
            else
              updAcct ud2 rid fun x =>
                { x with
                  referrals := x.referrals ++ [uid]
                  main_balance_usdt := x.main_balance_usdt + 1/25
                  referral_earnings := x.referral_earnings + 1/25 }
        else ud1
    else ud1

/-! ### Admin balance control (`handle_admin_amount_input`) -/

/-- Which balance pool an admin balance-control operation targets. -/
inductive AdminBalanceType
  | mainB
  | holdB
deriving DecidableEq

/-- Add or remove. -/
inductive AdminAction
  | add
  | remove
deriving DecidableEq

/-- Read the targeted pool. -/
def adminBalGet (bt : AdminBalanceType) (a : Account) : ℚ :=
  match bt with
  | .mainB => a.main_balance_usdt
  | .holdB => a.hold_balance_usdt

/-- Write the targeted pool. -/
def adminBalSet (bt : AdminBalanceType) (v : ℚ) (a : Account) : Account :=
  match bt with
  | .mainB => { a with main_balance_usdt := v }
  | .holdB => { a with hold_balance_usdt := v }

/-- Model of `handle_admin_amount_input`: operator-only; amount must be positive and
at most 100000; `add` credits the pool, `remove` debits it only when the
current balance covers the amount.  (The two-decimal-places check on the
raw input string is not modelled.) -/
def handle_admin_amount_input (actorId : String) (ud : Ledger) (uid : String)
    (bt : AdminBalanceType) (act : AdminAction) (amount : ℚ) : Ledger :=
  if actorId ≠ ADMIN_CHAT_ID then ud
  else if amount ≤ 0 then ud
  else if 100000 < amount then ud
  else
    let ud1 := get_user_data ud uid
    match assocLookup ud1 uid with
    | none => ud1
    | some a =>
      match act with
      | .add => updAcct ud1 uid (fun b => adminBalSet bt (adminBalGet bt b + amount) b)
      | .remove =>
        if amount ≤ adminBalGet bt a then
          updAcct ud1 uid (fun b => adminBalSet bt (adminBalGet bt b - amount) b)
        else ud1

/-! ### Valid operation sequences -/

/-- One ledger-touching user or operator action, as dispatched by the bot's
handlers. -/
inductive Op
  | submitNumber (uid number : String)
  | confirmOtp (actorId uid : String) (price : ℚ) (number country : String)
  | finalApprove (actorId uid : String) (price : ℚ) (number : String)
  | finalReject (actorId uid : String) (price : ℚ) (number : String)
  | withdraw (uid : String) (amount : ℚ)
  | startEvent (uid : String) (refParam : Option String)
  | approveSettle (actorId uid : String) (amount : ℚ)
  | adminAdjust (actorId uid : String) (bt : AdminBalanceType)
      (act : AdminAction) (amount : ℚ)

/-- A valid operation carries a nonnegative price or amount: sale prices
come from the country catalog and settlement tokens echo them back. -/
def Op.valid : Op → Prop
  | .confirmOtp _ _ price _ _ => 0 ≤ price
  | .finalApprove _ _ price _ => 0 ≤ price
  | .finalReject _ _ price _ => 0 ≤ price
  | .approveSettle _ _ amount => 0 ≤ amount
  | _ => True

instance : DecidablePred Op.valid := fun op =>
  match op with
  | .submitNumber _ _ => inferInstanceAs (Decidable True)
  | .confirmOtp _ _ price _ _ => inferInstanceAs (Decidable (0 ≤ price))
  | .finalApprove _ _ price _ => inferInstanceAs (Decidable (0 ≤ price))
  | .finalReject _ _ price _ => inferInstanceAs (Decidable (0 ≤ price))
  | .withdraw _ _ => inferInstanceAs (Decidable True)
  | .startEvent _ _ => inferInstanceAs (Decidable True)
  | .approveSettle _ _ amount => inferInstanceAs (Decidable (0 ≤ amount))
  | .adminAdjust _ _ _ _ _ => inferInstanceAs (Decidable True)

/-- Ledger effect of one operation (`handle_number_input` reads but never
writes the ledger). -/
def applyOp (ud : Ledger) : Op → Ledger
  | .submitNumber _ _ => ud
  | .confirmOtp actor uid price number country =>
    confirm_otp_callback actor ud uid price number country
  | .finalApprove actor uid price number =>
    (final_approve_callback actor ud uid price number).1
  | .finalReject actor uid price number =>
    final_reject_callback actor ud uid price number
  | .withdraw uid amount =>
    (handle_withdraw_amount ud clearedCtx uid amount).1
  | .startEvent uid refParam => start ud uid refParam
  | .approveSettle actor uid amount => (approve_callback actor ud uid amount).1
  | .adminAdjust actor uid bt act amount =>
    handle_admin_amount_input actor ud uid bt act amount

/-- Every account reachable by lookup has nonnegative main and hold
balances. -/
def LedgerNonNeg (ud : Ledger) : Prop :=
  ∀ uid a, assocLookup ud uid = some a →
    0 ≤ a.main_balance_usdt ∧ 0 ≤ a.hold_balance_usdt

/-! ### Lookup and update lemmas -/

theorem assocLookup_updAcct_self (ud : Ledger) (uid : String)
    (f : Account → Account) :
    assocLookup (updAcct ud uid f) uid = (assocLookup ud uid).map f := by
  induction ud with
  | nil => rfl
  | cons e es ih =>
    obtain ⟨k, v⟩ := e
    simp only [updAcct]
    by_cases hk : k = uid
    · rw [if_pos hk]
      subst hk
      simp [assocLookup]
    · rw [if_neg hk]
      simp [assocLookup, hk, ih]

theorem assocLookup_updAcct_ne (ud : Ledger) (uid j : String)
    (f : Account → Account) (hj : j ≠ uid) :
    assocLookup (updAcct ud uid f) j = assocLookup ud j := by
  induction ud with
  | nil => rfl
  | cons e es ih =>
    obtain ⟨k, v⟩ := e
    simp only [updAcct]
    by_cases hk : k = uid
    · rw [if_pos hk]
      subst hk
      have huj : k ≠ j := fun h => hj h.symm
      simp [assocLookup, huj, ih]
    · rw [if_neg hk]
      by_cases hkj : k = j
      · subst hkj
        simp [assocLookup]
      · simp [assocLookup, hkj, ih]

theorem assocLookup_get_user_data_self (ud : Ledger) (uid : String) :
    assocLookup (get_user_data ud uid) uid =
      some ((assocLookup ud uid).getD defaultAccount) := by
  unfold get_user_data
  cases h : assocLookup ud uid with
  | some a => simp [h]
  | none => simp [assocLookup, h]

theorem assocLookup_get_user_data_ne (ud : Ledger) (uid j : String)
    (hj : j ≠ uid) :
    assocLookup (get_user_data ud uid) j = assocLookup ud j := by
  unfold get_user_data
  cases h : assocLookup ud uid with
  | some a => simp
  | none =>
    have : uid ≠ j := fun h' => hj h'.symm
    simp [assocLookup, this]

theorem assocLookup_get_user_data_of_some (ud : Ledger) (uid : String)
    (a : Account) (h : assocLookup ud uid = some a) :
    get_user_data ud uid = ud := by
  unfold get_user_data
  simp [h]

/-- Nonnegativity is preserved by updating one account whose image under
`f` stays nonnegative. -/
theorem ledgerNonNeg_updAcct (ud : Ledger) (uid : String)
    (f : Account → Account) (hud : LedgerNonNeg ud)
    (hf : ∀ a, assocLookup ud uid = some a →
      0 ≤ (f a).main_balance_usdt ∧ 0 ≤ (f a).hold_balance_usdt) :
    LedgerNonNeg (updAcct ud uid f) := by
  intro j b hb
  by_cases hj : j = uid
  · subst hj
    rw [assocLookup_updAcct_self] at hb
    cases h : assocLookup ud j with
    | none => rw [h] at hb; simp at hb
    | some a =>
      rw [h] at hb
      simp at hb
      exact hb ▸ hf a h
  · rw [assocLookup_updAcct_ne ud uid j f hj] at hb
    exact hud j b hb

theorem ledgerNonNeg_get_user_data (ud : Ledger) (uid : String)
    (hud : LedgerNonNeg ud) : LedgerNonNeg (get_user_data ud uid) := by
  unfold get_user_data
  cases h : assocLookup ud uid with
  | some a => exact hud
  | none =>
    intro j b hb
    simp only [assocLookup] at hb
    by_cases hj : uid = j
    · simp [hj] at hb
      subst hb
      exact ⟨le_refl 0, le_refl 0⟩
    · simp [hj] at hb
      exact hud j b hb

/-- One valid operation preserves nonnegativity of all main and hold
balances. -/
theorem ledgerNonNeg_applyOp (ud : Ledger) (op : Op) (hud : LedgerNonNeg ud)
    (hv : op.valid) : LedgerNonNeg (applyOp ud op) := by
  cases op with
  | submitNumber uid number => exact hud
  | confirmOtp actor uid price number country =>
    have hp : (0 : ℚ) ≤ price := hv
    simp only [applyOp, confirm_otp_callback]
    apply ledgerNonNeg_updAcct _ _ _ (ledgerNonNeg_get_user_data ud uid hud)
    intro a ha
    have h := ledgerNonNeg_get_user_data ud uid hud uid a ha
    exact ⟨h.1, add_nonneg h.2 hp⟩
  | finalApprove actor uid price number =>
    have hp : (0 : ℚ) ≤ price := hv
    simp only [applyOp, final_approve_callback]
    cases h : assocLookup ud uid with
    | none => exact hud
    | some a =>
      dsimp only
      by_cases hhold : price ≤ a.hold_balance_usdt
      · rw [if_pos hhold]
        have h1 : LedgerNonNeg (updAcct ud uid fun b =>
            { b with processing_details :=
                setStatusFirst b.processing_details number .Successful }) := by
          apply ledgerNonNeg_updAcct _ _ _ hud
          intro b hb
          exact hud uid b hb
        have h2 : LedgerNonNeg (updAcct (updAcct ud uid fun b =>
            { b with processing_details :=
                setStatusFirst b.processing_details number .Successful }) uid
            fun b =>
              { b with
                hold_balance_usdt := b.hold_balance_usdt - price
                main_balance_usdt := b.main_balance_usdt + price }) := by
          apply ledgerNonNeg_updAcct _ _ _ h1
          intro b hb
          rw [assocLookup_updAcct_self, h] at hb
          simp at hb
          subst hb
          have hm := (hud uid a h).1
          constructor
          · simpa using add_nonneg hm hp
          · simpa using sub_nonneg.mpr hhold
        apply ledgerNonNeg_updAcct _ _ _ h2
        intro b hb
        exact h2 uid b hb
      · rw [if_neg hhold]
        apply ledgerNonNeg_updAcct _ _ _ hud
        intro b hb
        exact hud uid b hb
  | finalReject actor uid price number =>
    have hp : (0 : ℚ) ≤ price := hv
    simp only [applyOp, final_reject_callback]
    cases h : assocLookup ud uid with
    | none => exact hud
    | some a =>
      dsimp only
      have h1 : LedgerNonNeg (updAcct ud uid fun b =>
          { b with processing_details :=
              setStatusFirst b.processing_details number .Reject }) := by
        apply ledgerNonNeg_updAcct _ _ _ hud
        intro b hb
        exact hud uid b hb
      by_cases hhold : price ≤ a.hold_balance_usdt
      · rw [if_pos hhold]
        have h2 : LedgerNonNeg (updAcct (updAcct ud uid fun b =>
            { b with processing_details :=
                setStatusFirst b.processing_details number .Reject }) uid
            fun b =>
              { b with hold_balance_usdt := b.hold_balance_usdt - price }) := by
          apply ledgerNonNeg_updAcct _ _ _ h1
          intro b hb
          rw [assocLookup_updAcct_self, h] at hb
          simp at hb
          subst hb
          refine ⟨by simpa using (hud uid a h).1, ?_⟩
          simpa using sub_nonneg.mpr hhold
        apply ledgerNonNeg_updAcct _ _ _ h2
        intro b hb
        exact h2 uid b hb
      · rw [if_neg hhold]
        apply ledgerNonNeg_updAcct _ _ _ h1
        intro b hb
        exact h1 uid b hb
  | withdraw uid amount =>
    simp only [applyOp, handle_withdraw_amount]
    have h1 : LedgerNonNeg (get_user_data ud uid) :=
      ledgerNonNeg_get_user_data ud uid hud
    by_cases hfloor : amount < 10
    · rw [if_pos hfloor]
      exact h1
    · rw [if_neg hfloor]
      by_cases hbal :
          ((assocLookup (get_user_data ud uid) uid).getD
            defaultAccount).main_balance_usdt < amount
      · rw [if_pos hbal]
        exact h1
      · rw [if_neg hbal]
        apply ledgerNonNeg_updAcct _ _ _ h1
        intro b hb
        rw [assocLookup_get_user_data_self] at hb
        simp at hb
        subst hb
        push_neg at hbal
        rw [assocLookup_get_user_data_self] at hbal
        simp only [Option.getD_some] at hbal
        refine ⟨by simpa using sub_nonneg.mpr hbal, ?_⟩
        simpa using
          (h1 uid _ (assocLookup_get_user_data_self ud uid)).2
  | startEvent uid refParam =>
    simp only [applyOp, start]
    have h1 : LedgerNonNeg (get_user_data ud uid) :=
      ledgerNonNeg_get_user_data ud uid hud
    cases refParam with
    | none => exact h1
    | some rid =>
      dsimp only
      by_cases hr : rid ≠ "" ∧ rid ≠ uid
      · rw [if_pos hr]
        cases hb : assocLookup (get_user_data ud uid) uid with
        | none => exact h1
        | some b =>
          dsimp only
          by_cases hrefid : b.referrer_id = none
          · rw [if_pos hrefid]
            cases hrr : assocLookup (get_user_data ud uid) rid with
            | none => exact h1
            | some r =>
              dsimp only
              have h2 : LedgerNonNeg (updAcct (get_user_data ud uid) uid
                  fun x => { x with referrer_id := some rid }) := by
                apply ledgerNonNeg_updAcct _ _ _ h1
                intro x hx
                exact h1 uid x hx
              by_cases hmem : uid ∈ r.referrals
              · rw [if_pos hmem]
                exact h2
              · rw [if_neg hmem]
                apply ledgerNonNeg_updAcct _ _ _ h2
                intro x hx
                have hnn := h2 rid x hx
                have : (0 : ℚ) ≤ 1/25 := by norm_num
                exact ⟨add_nonneg hnn.1 this, hnn.2⟩
          · rw [if_neg hrefid]
            exact h1
      · rw [if_neg hr]
        exact h1
  | approveSettle actor uid amount =>
    have ha : (0 : ℚ) ≤ amount := hv
    simp only [applyOp, approve_callback]
    by_cases hadm : actor ≠ ADMIN_CHAT_ID
    · rw [if_pos hadm]
      exact hud
    · rw [if_neg hadm]
      cases h : assocLookup ud uid with
      | none => exact hud
      | some a =>
        dsimp only
        by_cases hhold : amount ≤ a.hold_balance_usdt
        · rw [if_pos hhold]
          have h1 : LedgerNonNeg (updAcct ud uid fun b =>
              { b with
                hold_balance_usdt := b.hold_balance_usdt - amount
                main_balance_usdt := b.main_balance_usdt + amount }) := by
            apply ledgerNonNeg_updAcct _ _ _ hud
            intro b hb
            rw [h] at hb
            simp at hb
            subst hb
            refine ⟨by simpa using add_nonneg (hud uid a h).1 ha, ?_⟩
            simpa using sub_nonneg.mpr hhold
          cases hrid : a.referrer_id with
          | none => exact h1
          | some rid =>
            dsimp only
            by_cases hok : rid ≠ "" ∧ (assocLookup (updAcct ud uid fun b =>
                { b with
                  hold_balance_usdt := b.hold_balance_usdt - amount
                  main_balance_usdt := b.main_balance_usdt + amount })
                rid).isSome
            · rw [if_pos hok]
              apply ledgerNonNeg_updAcct _ _ _ h1
              intro x hx
              have hnn := h1 rid x hx
              have hc : (0 : ℚ) ≤ amount * (3/100) :=
                mul_nonneg ha (by norm_num)
              exact ⟨add_nonneg hnn.1 hc, hnn.2⟩
            · rw [if_neg hok]
              exact h1
        · rw [if_neg hhold]
          exact hud
  | adminAdjust actor uid bt act amount =>
    simp only [applyOp, handle_admin_amount_input]
    by_cases hadm : actor ≠ ADMIN_CHAT_ID
    · rw [if_pos hadm]
      exact hud
    · rw [if_neg hadm]
      by_cases hz : amount ≤ 0
      · rw [if_pos hz]
        exact hud
      · rw [if_neg hz]
        by_cases hcap : (100000 : ℚ) < amount
        · rw [if_pos hcap]
          exact hud
        · rw [if_neg hcap]
          have h1 : LedgerNonNeg (get_user_data ud uid) :=
            ledgerNonNeg_get_user_data ud uid hud
          cases h : assocLookup (get_user_data ud uid) uid with
          | none => exact h1
          | some a =>
            dsimp only
            push_neg at hz
            cases act with
            | add =>
              apply ledgerNonNeg_updAcct _ _ _ h1
              intro b hb
              have hnn := h1 uid b hb
              cases bt with
              | mainB =>
                exact ⟨add_nonneg hnn.1 (le_of_lt hz), hnn.2⟩
              | holdB =>
                exact ⟨hnn.1, add_nonneg hnn.2 (le_of_lt hz)⟩
            | remove =>
              by_cases hcov : amount ≤ adminBalGet bt a
              · rw [if_pos hcov]
                apply ledgerNonNeg_updAcct _ _ _ h1
                intro b hb
                rw [h] at hb
                simp at hb
                subst hb
                have hnn := h1 uid a h
                cases bt with
                | mainB =>
                  exact ⟨sub_nonneg.mpr hcov, hnn.2⟩
                | holdB =>
                  exact ⟨hnn.1, sub_nonneg.mpr hcov⟩
              · rw [if_neg hcov]
                exact h1

/-! ### SaleRecord status lemmas -/

theorem hasRecord_setStatusFirst (l : List SaleRecord) (n : String)
    (st : SaleStatus) :
    hasRecord (setStatusFirst l n st) n = hasRecord l n := by
  induction l with
  | nil => rfl
  | cons r rs ih =>
    by_cases h : r.number = n
    · simp [setStatusFirst, hasRecord, h]
    · simp [setStatusFirst, hasRecord, h, ih]

theorem statusOf_setStatusFirst (l : List SaleRecord) (n : String)
    (st : SaleStatus) (h : hasRecord l n = true) :
    statusOf (setStatusFirst l n st) n = some st := by
  induction l with
  | nil => simp [hasRecord] at h
  | cons r rs ih =>
    by_cases hr : r.number = n
    · simp [setStatusFirst, statusOf, hr]
    · rw [hasRecord, if_neg hr] at h
      simp [setStatusFirst, statusOf, hr, ih h]

/-! ### Claim theorems -/

/-- C1.  Settlement conservation: when the account exists, its hold
balance covers the price and a SaleRecord for the number is present,
`final_approve_callback` answers ok and — within its single
`user_data_lock` critical section — decreases `hold_balance_usdt` by
exactly the price, increases `main_balance_usdt` of the same account by
exactly the price, and sets the matching SaleRecord's status to
`Successful`. -/
theorem final_approve_settlement_conservation (actorId : String)
    (ud : Ledger) (uid : String) (price : ℚ) (number : String)
    (acct : Account) (hacct : assocLookup ud uid = some acct)
    (hhold : price ≤ acct.hold_balance_usdt)
    (hrec : hasRecord acct.processing_details number = true) :
    (final_approve_callback actorId ud uid price number).2 = .ok ∧
    ∃ acct',
      assocLookup (final_approve_callback actorId ud uid price number).1 uid =
        some acct' ∧
      acct'.hold_balance_usdt = acct.hold_balance_usdt - price ∧
      acct'.main_balance_usdt = acct.main_balance_usdt + price ∧
      statusOf acct'.processing_details number = some .Successful := by
  have h1 : hasRecord
      (setStatusFirst acct.processing_details number .Successful) number =
      true := by
    rw [hasRecord_setStatusFirst]
    exact hrec
  unfold final_approve_callback
  rw [hacct]
  dsimp only
  rw [if_pos hhold]
  refine ⟨rfl, ?_⟩
  refine ⟨{ acct with
      main_balance_usdt := acct.main_balance_usdt + price
      hold_balance_usdt := acct.hold_balance_usdt - price
      processing_details :=
        upsertStatus (setStatusFirst acct.processing_details number .Successful)
          number price .Successful }, ?_, rfl, rfl, ?_⟩
  · rw [assocLookup_updAcct_self, assocLookup_updAcct_self,
      assocLookup_updAcct_self, hacct]
    rfl
  · unfold upsertStatus
    rw [if_pos h1]
    exact statusOf_setStatusFirst _ _ _ h1

/-- Concrete account with a pending sale, for witnesses. -/
def acctC1 : Account :=
  { defaultAccount with
    hold_balance_usdt := 2
    processing_details := [⟨"5551234567", 13/10, .Processing, "US"⟩] }

/-- Concrete one-account ledger, for witnesses. -/
def udC1 : Ledger := [("7", acctC1)]

/-- Witness for C1 at a concrete ledger. -/
theorem final_approve_settlement_conservation_witness :
    assocLookup udC1 "7" = some acctC1 ∧
    (13:ℚ)/10 ≤ acctC1.hold_balance_usdt ∧
    hasRecord acctC1.processing_details "5551234567" = true ∧
    (final_approve_callback ADMIN_CHAT_ID udC1 "7" (13/10)
      "5551234567").2 = .ok :=
  ⟨rfl, by norm_num [acctC1], rfl,
    (final_approve_settlement_conservation ADMIN_CHAT_ID udC1 "7" (13/10)
      "5551234567" acctC1 rfl (by norm_num [acctC1]) rfl).1⟩

theorem ledgerNonNeg_foldl (ops : List Op) :
    ∀ ud, LedgerNonNeg ud → (∀ op ∈ ops, op.valid) →
      LedgerNonNeg (ops.foldl applyOp ud) := by
  induction ops with
  | nil =>
    intro ud h _
    exact h
  | cons op rest ih =>
    intro ud h hv
    simp only [List.foldl_cons]
    exact ih _ (ledgerNonNeg_applyOp ud op h (hv op (by simp)))
      fun o ho => hv o (List.mem_cons_of_mem _ ho)

/-- C2.  After any sequence of valid operations (number submission, code
confirmation, final approval, final rejection, withdrawal, referral bonus
via `/start`, referral commission via `approve_callback`, and operator
balance add/remove) starting from the empty ledger, every account's
`main_balance_usdt` and `hold_balance_usdt` are nonnegative. -/
theorem balances_nonneg_after_valid_ops (ops : List Op)
    (hv : ∀ op ∈ ops, op.valid) :
    LedgerNonNeg (ops.foldl applyOp ([] : Ledger)) := by
  apply ledgerNonNeg_foldl ops [] _ hv
  intro uid a ha
  simp [assocLookup] at ha

/-- Concrete valid operation sequence, for the C2 witness. -/
def opsC2 : List Op :=
  [Op.startEvent "7" none,
   Op.startEvent "8" (some "7"),
   Op.confirmOtp ADMIN_CHAT_ID "8" (13/10) "5551234567" "US",
   Op.finalApprove ADMIN_CHAT_ID "8" (13/10) "5551234567",
   Op.adminAdjust ADMIN_CHAT_ID "8" .mainB .add 20,
   Op.withdraw "8" 10]

/-- Witness for C2 on a concrete sequence of valid operations. -/
theorem balances_nonneg_after_valid_ops_witness :
    (∀ op ∈ opsC2, op.valid) ∧
    LedgerNonNeg (opsC2.foldl applyOp ([] : Ledger)) :=
  have h : ∀ op ∈ opsC2, op.valid := by
    intro op ho
    fin_cases ho <;> norm_num [Op.valid]
  ⟨h, balances_nonneg_after_valid_ops opsC2 h⟩

/-- Concrete ledger with a double-approvable hold, for C3. -/
def udC3 : Ledger :=
  [("7", { defaultAccount with
            hold_balance_usdt := 2
            processing_details := [⟨"5551234567", 1, .Processing, "US"⟩] })]

/-- C3 (defect evaluation).  Applying the very same final-approval decision
token twice credits `main_balance_usdt` twice: after the first application
the main balance is 1, after the second it is 2 — the settlement carries no
already-settled guard, so the claimed once-only crediting fails. -/
theorem final_approve_double_credit_bug :
    ((assocLookup (final_approve_callback ADMIN_CHAT_ID udC3
        "7" 1 "5551234567").1 "7").map (fun a => a.main_balance_usdt) =
      some 1) ∧
    ((assocLookup (final_approve_callback ADMIN_CHAT_ID
        (final_approve_callback ADMIN_CHAT_ID udC3 "7" 1 "5551234567").1
        "7" 1 "5551234567").1 "7").map (fun a => a.main_balance_usdt) =
      some 2) := by
  constructor <;>
    norm_num [udC3, final_approve_callback, assocLookup, updAcct,
      defaultAccount, setStatusFirst, upsertStatus, hasRecord]

/-- Concrete ledger for C4. -/
def udC4 : Ledger :=
  [("7", { defaultAccount with
            hold_balance_usdt := 1
            processing_details := [⟨"5551234567", 1, .Processing, "US"⟩] })]

/-- C4 (defect evaluation).  A final-approval decision issued by the
account `"999"`, which is not the fixed operator identifier, is not a
no-op: `final_approve_callback` consults the acting identity nowhere, so
the transfer of funds from hold to main is performed anyway. -/
theorem final_approve_ignores_operator_identity :
    "999" ≠ ADMIN_CHAT_ID ∧
    (final_approve_callback "999" udC4 "7" 1 "5551234567").2 = .ok ∧
    ((assocLookup (final_approve_callback "999" udC4
        "7" 1 "5551234567").1 "7").map (fun a => a.main_balance_usdt) =
      some 1) := by
  refine ⟨by simp [ADMIN_CHAT_ID], ?_, ?_⟩ <;>
    norm_num [udC4, final_approve_callback, assocLookup, updAcct,
      defaultAccount, setStatusFirst, upsertStatus, hasRecord]

/-- Concrete two-account ledger where `"B"` was referred by `"A"` and has
a pending sale at price 1.30, for C5. -/
def udC5 : Ledger :=
  [("A", defaultAccount),
   ("B", { defaultAccount with
            referrer_id := some "A"
            hold_balance_usdt := 13/10
            processing_details := [⟨"5551234567", 13/10, .Processing, "US"⟩] })]

/-- C5 counterexample.  A final settlement through
`final_approve_callback` at price 1.30 by an account whose `referrer_id`
names the existing account `"A"` completes (status ok, seller credited
1.30), yet leaves the referrer's `main_balance_usdt` and
`referral_earnings` at 0 instead of increasing them by 0.039: that handler
pays no referral commission. -/
theorem final_approve_pays_no_commission :
    (final_approve_callback ADMIN_CHAT_ID udC5 "B" (13/10)
      "5551234567").2 = .ok ∧
    ((assocLookup (final_approve_callback ADMIN_CHAT_ID udC5 "B" (13/10)
        "5551234567").1 "B").map (fun a => a.main_balance_usdt) =
      some (13/10)) ∧
    ((assocLookup (final_approve_callback ADMIN_CHAT_ID udC5 "B" (13/10)
        "5551234567").1 "A").map (fun a => a.main_balance_usdt) = some 0) ∧
    ((assocLookup (final_approve_callback ADMIN_CHAT_ID udC5 "B" (13/10)
        "5551234567").1 "A").map (fun a => a.referral_earnings) = some 0) := by
  refine ⟨?_, ?_, ?_, ?_⟩ <;>
    simp [udC5, final_approve_callback, assocLookup, updAcct,
      defaultAccount, setStatusFirst, upsertStatus, hasRecord]

/-- C5 amended.  The 3% referral commission is paid by the
`approve_callback` settlement path (operator token
`approve_{user_id}_{amount}`), not by `final_approve_callback`: there,
settling a sale of `amount` for an account whose `referrer_id` names an
existing distinct account atomically increases the referrer's
`main_balance_usdt` and `referral_earnings` by exactly `amount * 0.03`,
alongside the seller's hold-to-main transfer. -/
theorem approve_callback_pays_referral_commission (ud : Ledger)
    (uid rid : String) (amount : ℚ) (a r : Account)
    (hacct : assocLookup ud uid = some a)
    (hhold : amount ≤ a.hold_balance_usdt)
    (href : a.referrer_id = some rid)
    (hrne : rid ≠ "") (hru : rid ≠ uid)
    (hr : assocLookup ud rid = some r) :
    (approve_callback ADMIN_CHAT_ID ud uid amount).2 = .ok ∧
    assocLookup (approve_callback ADMIN_CHAT_ID ud uid amount).1 rid =
      some { r with
        main_balance_usdt := r.main_balance_usdt + amount * (3/100)
        referral_earnings := r.referral_earnings + amount * (3/100) } ∧
    assocLookup (approve_callback ADMIN_CHAT_ID ud uid amount).1 uid =
      some { a with
        hold_balance_usdt := a.hold_balance_usdt - amount
        main_balance_usdt := a.main_balance_usdt + amount } := by
  have hne : ¬ (ADMIN_CHAT_ID ≠ ADMIN_CHAT_ID) := by simp
  have hlook : assocLookup (updAcct ud uid fun b =>
      { b with
        hold_balance_usdt := b.hold_balance_usdt - amount
        main_balance_usdt := b.main_balance_usdt + amount }) rid =
      some r := by
    rw [assocLookup_updAcct_ne _ _ _ _ hru]
    exact hr
  unfold approve_callback
  rw [if_neg hne, hacct]
  dsimp only
  rw [if_pos hhold, href]
  dsimp only
  rw [if_pos ⟨hrne, by rw [hlook]; rfl⟩]
  refine ⟨rfl, ?_, ?_⟩
  · rw [assocLookup_updAcct_self, hlook]
    rfl
  · rw [assocLookup_updAcct_ne _ _ _ _ (fun h => hru h.symm),
      assocLookup_updAcct_self, hacct]
    simp [href]

/-- Concrete ledger for the C5 witness of the amended claim. -/
def udC5w : Ledger :=
  [("A", defaultAccount),
   ("B", { defaultAccount with
            referrer_id := some "A"
            hold_balance_usdt := 13/10 })]

/-- Witness for the amended C5 at a concrete ledger: the commission on a
1.30 settlement is exactly 0.039. -/
theorem approve_callback_pays_referral_commission_witness :
    ((13:ℚ)/10 * (3/100) = 39/1000) ∧
    assocLookup (approve_callback ADMIN_CHAT_ID udC5w "B" (13/10)).1 "A" =
      some { defaultAccount with
        main_balance_usdt := 39/1000
        referral_earnings := 39/1000 } := by
  constructor
  · norm_num
  · have h := (approve_callback_pays_referral_commission udC5w "B" "A"
      (13/10) _ defaultAccount rfl (by norm_num [udC5w]) rfl
      (by simp) (by simp) rfl).2.1
    rw [h]
    norm_num [defaultAccount]

theorem soldNumbersHas_iff (l : List String) (n : String) :
    soldNumbersHas l n = true ↔ n ∈ l := by
  induction l with
  | nil => simp [soldNumbersHas]
  | cons x xs ih =>
    by_cases h : x = n
    · simp [soldNumbersHas, h]
    · have : n ≠ x := fun h' => h h'.symm
      simp [soldNumbersHas, h, ih, this]

theorem numberSoldAnywhere_iff (ud : Ledger) (n : String) :
    numberSoldAnywhere ud n = true ↔ ∃ e ∈ ud, n ∈ e.2.sold_numbers := by
  induction ud with
  | nil => simp [numberSoldAnywhere]
  | cons e es ih =>
    obtain ⟨k, a⟩ := e
    by_cases h : soldNumbersHas a.sold_numbers n = true
    · simp [numberSoldAnywhere, h]
      exact Or.inl ((soldNumbersHas_iff _ _).mp h)
    · have h' : n ∉ a.sold_numbers := fun hm =>
        h ((soldNumbersHas_iff _ _).mpr hm)
      simp [numberSoldAnywhere, h, ih, h']

theorem pyIsDigit_iff (s : String) :
    pyIsDigit s = true ↔ s.data ≠ [] ∧ ∀ c ∈ s.data, c.isDigit = true := by
  simp [pyIsDigit, List.isEmpty_iff, List.all_eq_true]

/-- C6.  A submitted number is accepted (operator notified, sale advances
to pending approval) iff it is digits-only, its length is between 7 and 14
inclusive, and it occurs in no account's `sold_numbers`; a number of
length 6 or 15 is never accepted, and a number recorded in any account's
`sold_numbers` is never accepted.  On every rejection the handler merely
re-prompts: it never writes the ledger (it returns no new ledger at all in
this model, mirroring the read-only source). -/
theorem handle_number_input_acceptance (ud : Ledger) (n : String) :
    (handle_number_input ud n = .accepted ↔
      ((∀ c ∈ n.data, c.isDigit = true) ∧ 7 ≤ n.length ∧ n.length ≤ 14 ∧
        ∀ e ∈ ud, n ∉ e.2.sold_numbers)) ∧
    (n.length = 6 ∨ n.length = 15 → handle_number_input ud n ≠ .accepted) ∧
    ((∃ e ∈ ud, n ∈ e.2.sold_numbers) →
      handle_number_input ud n ≠ .accepted) := by
  have hlen : n.length = n.data.length := rfl
  have hmain : handle_number_input ud n = .accepted ↔
      ((∀ c ∈ n.data, c.isDigit = true) ∧ 7 ≤ n.length ∧ n.length ≤ 14 ∧
        ∀ e ∈ ud, n ∉ e.2.sold_numbers) := by
    unfold handle_number_input
    by_cases hsold : numberSoldAnywhere ud n = true
    · rw [if_pos hsold]
      obtain ⟨e, he, hn⟩ := (numberSoldAnywhere_iff ud n).mp hsold
      constructor
      · intro h
        cases h
      · rintro ⟨-, -, -, hnone⟩
        exact absurd hn (hnone e he)
    · rw [if_neg hsold]
      have hnot : ∀ e ∈ ud, n ∉ e.2.sold_numbers := by
        intro e he hn
        exact hsold ((numberSoldAnywhere_iff ud n).mpr ⟨e, he, hn⟩)
      by_cases hfmt : !(pyIsDigit n) || n.length < 7 || 14 < n.length
      · rw [if_pos hfmt]
        constructor
        · intro h
          cases h
        · rintro ⟨hdig, h7, h14⟩
          have hne : n.data ≠ [] := by
            intro he
            rw [hlen, he] at h7
            simp at h7
          have hpd : pyIsDigit n = true := (pyIsDigit_iff n).mpr ⟨hne, hdig⟩
          simp [hpd] at hfmt
          omega
      · rw [if_neg hfmt]
        simp only [Bool.or_eq_true, Bool.not_eq_true', decide_eq_true_eq,
          not_or] at hfmt
        obtain ⟨⟨hpd, h7⟩, h14⟩ := hfmt
        have hpd' : pyIsDigit n = true := by
          cases h : pyIsDigit n
          · rw [h] at hpd
            simp at hpd
          · rfl
        refine ⟨fun _ => ⟨((pyIsDigit_iff n).mp hpd').2, by omega, by omega,
          hnot⟩, fun _ => rfl⟩
  refine ⟨hmain, ?_, ?_⟩
  · intro hb hacc
    obtain ⟨-, h7, h14, -⟩ := hmain.mp hacc
    cases hb with
    | inl h => omega
    | inr h => omega
  · intro ⟨e, he, hn⟩ hacc
    obtain ⟨-, -, -, hnone⟩ := hmain.mp hacc
    exact absurd hn (hnone e he)

/-- Concrete ledger with one already-sold number, for the C6 witness. -/
def udC6 : Ledger :=
  [("7", { defaultAccount with sold_numbers := ["5551234567"] })]

/-- Witness for C6: a fresh valid 10-digit number is accepted; length-6 and
length-15 numbers are rejected; resubmitting the sold number is rejected. -/
theorem handle_number_input_acceptance_witness :
    handle_number_input udC6 "5559876543" = .accepted ∧
    handle_number_input udC6 "123456" ≠ .accepted ∧
    handle_number_input udC6 "123456789012345" ≠ .accepted ∧
    handle_number_input udC6 "5551234567" ≠ .accepted :=
  ⟨(handle_number_input_acceptance udC6 "5559876543").1.mpr
      ⟨by decide, by decide, by decide, by simp [udC6, defaultAccount]⟩,
   (handle_number_input_acceptance udC6 "123456").2.1 (Or.inl rfl),
   (handle_number_input_acceptance udC6 "123456789012345").2.1 (Or.inr rfl),
   (handle_number_input_acceptance udC6 "5551234567").2.2
      (by simp [udC6])⟩

/-- C7.  For an existing account: an amount below the floor of 10 or above
the main balance is rejected with the ledger unchanged and the transient
withdrawal context discarded; otherwise `main_balance_usdt` decreases by
exactly the amount and `withdrawal_processing_balance` increases by exactly
the amount within the single critical section, every other account being
untouched. -/
theorem handle_withdraw_amount_spec (ud : Ledger) (ctx : ConvCtx)
    (uid : String) (amount : ℚ) (acct : Account)
    (hacct : assocLookup ud uid = some acct) :
    (amount < 10 →
      handle_withdraw_amount ud ctx uid amount = (ud, clearedCtx, .belowMin)) ∧
    (10 ≤ amount → acct.main_balance_usdt < amount →
      handle_withdraw_amount ud ctx uid amount =
        (ud, clearedCtx, .insufficient)) ∧
    (10 ≤ amount → amount ≤ acct.main_balance_usdt →
      (handle_withdraw_amount ud ctx uid amount).2.2 = .ok ∧
      (handle_withdraw_amount ud ctx uid amount).2.1 = clearedCtx ∧
      assocLookup (handle_withdraw_amount ud ctx uid amount).1 uid =
        some { acct with
          main_balance_usdt := acct.main_balance_usdt - amount
          withdrawal_processing_balance :=
            acct.withdrawal_processing_balance + amount } ∧
      ∀ j, j ≠ uid →
        assocLookup (handle_withdraw_amount ud ctx uid amount).1 j =
          assocLookup ud j) := by
  have hud1 : get_user_data ud uid = ud :=
    assocLookup_get_user_data_of_some ud uid acct hacct
  unfold handle_withdraw_amount
  dsimp only
  rw [hud1, hacct]
  dsimp only [Option.getD_some]
  refine ⟨fun hlt => by rw [if_pos hlt], ?_, ?_⟩
  · intro hfloor hover
    rw [if_neg (not_lt.mpr hfloor), if_pos hover]
  · intro hfloor hcov
    have h1 : ¬ amount < 10 := not_lt.mpr hfloor
    have h2 : ¬ acct.main_balance_usdt < amount := not_lt.mpr hcov
    rw [if_neg h1, if_neg h2]
    refine ⟨rfl, rfl, ?_, ?_⟩
    · rw [assocLookup_updAcct_self, hacct]
      rfl
    · intro j hj
      exact assocLookup_updAcct_ne ud uid j _ hj

/-- Concrete one-account ledger with main balance 50, for the C7 witness. -/
def udC7 : Ledger := [("7", { defaultAccount with main_balance_usdt := 50 })]

/-- Witness for C7: a withdrawal of exactly 10.00 is accepted and debits
main into processing; a withdrawal of 9.99 is rejected unchanged. -/
theorem handle_withdraw_amount_spec_witness :
    (handle_withdraw_amount udC7 clearedCtx "7" 10).2.2 = .ok ∧
    assocLookup (handle_withdraw_amount udC7 clearedCtx "7" 10).1 "7" =
      some { defaultAccount with
        main_balance_usdt := 40
        withdrawal_processing_balance := 10 } ∧
    handle_withdraw_amount udC7 clearedCtx "7" (999/100) =
      (udC7, clearedCtx, .belowMin) := by
  have h := handle_withdraw_amount_spec udC7 clearedCtx "7" 10
    { defaultAccount with main_balance_usdt := 50 } rfl
  have h' := handle_withdraw_amount_spec udC7 clearedCtx "7" (999/100)
    { defaultAccount with main_balance_usdt := 50 } rfl
  obtain ⟨hok, -, hacct, -⟩ := h.2.2 (by norm_num) (by norm_num [defaultAccount])
  refine ⟨hok, ?_, h'.1 (by norm_num)⟩
  rw [hacct]
  norm_num [defaultAccount]

/-- C8.  Final rejection of a covered pending sale debits
`hold_balance_usdt` by exactly the price, leaves the account's
`main_balance_usdt`, `topup_balance_usdt`,
`withdrawal_processing_balance` and `referral_earnings` unchanged (the
held funds are destroyed, credited nowhere), sets the matching
SaleRecord's status to `Reject`, and leaves every other account
untouched. -/
theorem final_reject_destroys_hold (actorId : String) (ud : Ledger)
    (uid : String) (price : ℚ) (number : String) (acct : Account)
    (hacct : assocLookup ud uid = some acct)
    (hhold : price ≤ acct.hold_balance_usdt)
    (hrec : hasRecord acct.processing_details number = true) :
    (∃ acct',
      assocLookup (final_reject_callback actorId ud uid price number) uid =
        some acct' ∧
      acct'.hold_balance_usdt = acct.hold_balance_usdt - price ∧
      acct'.main_balance_usdt = acct.main_balance_usdt ∧
      acct'.topup_balance_usdt = acct.topup_balance_usdt ∧
      acct'.withdrawal_processing_balance =
        acct.withdrawal_processing_balance ∧
      acct'.referral_earnings = acct.referral_earnings ∧
      statusOf acct'.processing_details number = some .Reject) ∧
    ∀ j, j ≠ uid →
      assocLookup (final_reject_callback actorId ud uid price number) j =
        assocLookup ud j := by
  have h1 : hasRecord
      (setStatusFirst acct.processing_details number .Reject) number =
      true := by
    rw [hasRecord_setStatusFirst]
    exact hrec
  unfold final_reject_callback
  rw [hacct]
  dsimp only
  rw [if_pos hhold]
  constructor
  · refine ⟨{ acct with
      hold_balance_usdt := acct.hold_balance_usdt - price
      processing_details :=
        upsertStatus (setStatusFirst acct.processing_details number .Reject)
          number price .Reject }, ?_, rfl, rfl, rfl, rfl, rfl, ?_⟩
    · rw [assocLookup_updAcct_self, assocLookup_updAcct_self,
        assocLookup_updAcct_self, hacct]
      rfl
    · unfold upsertStatus
      rw [if_pos h1]
      exact statusOf_setStatusFirst _ _ _ h1
  · intro j hj
    rw [assocLookup_updAcct_ne _ _ _ _ hj, assocLookup_updAcct_ne _ _ _ _ hj,
      assocLookup_updAcct_ne _ _ _ _ hj]

/-- Witness for C8 at a concrete ledger. -/
theorem final_reject_destroys_hold_witness :
    assocLookup udC1 "7" = some acctC1 ∧
    (13:ℚ)/10 ≤ acctC1.hold_balance_usdt ∧
    hasRecord acctC1.processing_details "5551234567" = true ∧
    ∃ acct',
      assocLookup (final_reject_callback ADMIN_CHAT_ID udC1 "7" (13/10)
        "5551234567") "7" = some acct' ∧
      acct'.main_balance_usdt = acctC1.main_balance_usdt :=
  ⟨rfl, by norm_num [acctC1], rfl,
    let h := (final_reject_destroys_hold ADMIN_CHAT_ID udC1 "7" (13/10)
      "5551234567" acctC1 rfl (by norm_num [acctC1]) rfl).1
    let acct' := Classical.choose h
    ⟨acct', (Classical.choose_spec h).1, (Classical.choose_spec h).2.2.1⟩⟩

/-- Spec-side restatement of the per-method minimum (bank 5.0, paypal 2.0,
upi 0.2, cashapp 1000.0, bitcoin 100.0, bep20 20.0, trc20 70.0, binance
25.0, payeer 30.0; unknown methods default to 1.0). -/
def method_minimum_spec (m : String) : ℚ :=
  if m = "bank" then 5
  else if m = "paypal" then 2
  else if m = "upi" then 1/5
  else if m = "cashapp" then 1000
  else if m = "bitcoin" then 100
  else if m = "bep20" then 20
  else if m = "trc20" then 70
  else if m = "binance" then 25
  else if m = "payeer" then 30
  else 1

/-- Spec-side restatement of the per-user minimum: the custom limit when
one exists, else 3.0 when the balance is within 0.01 of exactly 1.0, else
the global limit. -/
def user_minimum_spec (ws : WithdrawalSettings) (uid : String) (bal : ℚ) : ℚ :=
  match limitLookup ws.user_limits uid with
  | some l => l
  | none => if |bal - 1| < 1/100 then 3 else ws.global_limit

/-- C9.  `get_combined_withdrawal_limit` equals the max of the spec's
method minimum and user minimum; with no custom limit,
`combined_minimum(id, 1.00, 'upi') = max(0.2, 3.0) = 3.0`, and with no
custom limit and global limit 1.0, `combined_minimum(id, 50.00, 'bank') =
max(5.0, 1.0) = 5.0`. -/
theorem combined_withdrawal_limit_spec (ws : WithdrawalSettings)
    (uid : String) (bal : ℚ) (m : String) :
    (get_combined_withdrawal_limit ws uid bal m =
      max (method_minimum_spec m) (user_minimum_spec ws uid bal)) ∧
    (limitLookup ws.user_limits uid = none →
      get_combined_withdrawal_limit ws uid 1 "upi" = 3) ∧
    (limitLookup ws.user_limits uid = none → ws.global_limit = 1 →
      get_combined_withdrawal_limit ws uid 50 "bank" = 5) := by
  have hmethod : ∀ m', get_method_withdrawal_limit m' = method_minimum_spec m' := by
    intro m'
    by_cases h1 : m' = "bank"
    · subst h1; rfl
    by_cases h2 : m' = "paypal"
    · subst h2; rfl
    by_cases h3 : m' = "upi"
    · subst h3; rfl
    by_cases h4 : m' = "cashapp"
    · subst h4; rfl
    by_cases h5 : m' = "bitcoin"
    · subst h5; rfl
    by_cases h6 : m' = "bep20"
    · subst h6; rfl
    by_cases h7 : m' = "trc20"
    · subst h7; rfl
    by_cases h8 : m' = "binance"
    · subst h8; rfl
    by_cases h9 : m' = "payeer"
    · subst h9; rfl
    have e1 : ("bank":String) ≠ m' := fun h => h1 h.symm
    have e2 : ("paypal":String) ≠ m' := fun h => h2 h.symm
    have e3 : ("upi":String) ≠ m' := fun h => h3 h.symm
    have e4 : ("cashapp":String) ≠ m' := fun h => h4 h.symm
    have e5 : ("bitcoin":String) ≠ m' := fun h => h5 h.symm
    have e6 : ("bep20":String) ≠ m' := fun h => h6 h.symm
    have e7 : ("trc20":String) ≠ m' := fun h => h7 h.symm
    have e8 : ("binance":String) ≠ m' := fun h => h8 h.symm
    have e9 : ("payeer":String) ≠ m' := fun h => h9 h.symm
    simp [get_method_withdrawal_limit, METHOD_WITHDRAWAL_LIMITS, limitLookup,
      method_minimum_spec, h1, h2, h3, h4, h5, h6, h7, h8, h9,
      e1, e2, e3, e4, e5, e6, e7, e8, e9]
  have huser : get_user_withdrawal_limit ws uid bal =
      user_minimum_spec ws uid bal := rfl
  refine ⟨by rw [get_combined_withdrawal_limit, hmethod, huser], ?_, ?_⟩
  · intro hcustom
    unfold get_combined_withdrawal_limit get_user_withdrawal_limit
    rw [hcustom]
    dsimp only
    rw [if_pos (by norm_num)]
    rw [show get_method_withdrawal_limit "upi" = 1/5 from rfl]
    norm_num
  · intro hcustom hglobal
    unfold get_combined_withdrawal_limit get_user_withdrawal_limit
    rw [hcustom]
    dsimp only
    rw [if_neg (by norm_num), hglobal]
    rw [show get_method_withdrawal_limit "bank" = 5 from rfl]
    norm_num

/-- Concrete settings (global limit 1.0, no custom limits), for the C9
witness. -/
def wsC9 : WithdrawalSettings := ⟨1, [], true⟩

/-- Witness for C9 at concrete settings. -/
theorem combined_withdrawal_limit_spec_witness :
    limitLookup wsC9.user_limits "7" = none ∧
    wsC9.global_limit = 1 ∧
    get_combined_withdrawal_limit wsC9 "7" 1 "upi" = 3 ∧
    get_combined_withdrawal_limit wsC9 "7" 50 "bank" = 5 :=
  ⟨rfl, rfl,
    (combined_withdrawal_limit_spec wsC9 "7" 1 "upi").2.1 rfl,
    (combined_withdrawal_limit_spec wsC9 "7" 50 "bank").2.2 rfl rfl⟩

/-- C10.  When the new account `B`'s `/start` carries a referral parameter
naming an existing, distinct account `A` and `B`'s `referrer_id` is still
unset (and `B` not yet among `A`'s referrals): processing the event sets
`B.referrer_id := A` and pays `A` the flat 0.04 signup bonus on both
`main_balance_usdt` and `referral_earnings`, atomically; replaying the
same start event changes nothing — no second bonus, no overwrite. -/
theorem start_referral_signup_bonus (ud : Ledger) (A B : String)
    (aAcct bAcct : Account)
    (hA : assocLookup ud A = some aAcct)
    (hB : assocLookup ud B = some bAcct)
    (hAB : A ≠ B) (hAne : A ≠ "")
    (href : bAcct.referrer_id = none)
    (hmem : B ∉ aAcct.referrals) :
    (assocLookup (start ud B (some A)) B =
      some { bAcct with referrer_id := some A }) ∧
    (assocLookup (start ud B (some A)) A =
      some { aAcct with
        referrals := aAcct.referrals ++ [B]
        main_balance_usdt := aAcct.main_balance_usdt + 1/25
        referral_earnings := aAcct.referral_earnings + 1/25 }) ∧
    (∀ j, j ≠ A → j ≠ B →
      assocLookup (start ud B (some A)) j = assocLookup ud j) ∧
    start (start ud B (some A)) B (some A) = start ud B (some A) := by
  have hBA : B ≠ A := fun h => hAB h.symm
  have hud1 : get_user_data ud B = ud :=
    assocLookup_get_user_data_of_some ud B bAcct hB
  have hstart : start ud B (some A) =
      updAcct (updAcct ud B fun x => { x with referrer_id := some A }) A
        fun x =>
          { x with
            referrals := x.referrals ++ [B]
            main_balance_usdt := x.main_balance_usdt + 1/25
            referral_earnings := x.referral_earnings + 1/25 } := by
    unfold start
    dsimp only
    rw [hud1, hB]
    dsimp only
    rw [if_pos ⟨hAne, hAB⟩, href]
    rw [if_pos rfl, hA]
    dsimp only
    rw [if_neg hmem]
  have hlookB : assocLookup (start ud B (some A)) B =
      some { bAcct with referrer_id := some A } := by
    rw [hstart, assocLookup_updAcct_ne _ _ _ _ hBA,
      assocLookup_updAcct_self, hB]
    rfl
  have hlookA : assocLookup (start ud B (some A)) A =
      some { aAcct with
        referrals := aAcct.referrals ++ [B]
        main_balance_usdt := aAcct.main_balance_usdt + 1/25
        referral_earnings := aAcct.referral_earnings + 1/25 } := by
    rw [hstart, assocLookup_updAcct_self,
      assocLookup_updAcct_ne _ _ _ _ hAB, hA]
    rfl
  refine ⟨hlookB, hlookA, ?_, ?_⟩
  · intro j hjA hjB
    rw [hstart, assocLookup_updAcct_ne _ _ _ _ hjA,
      assocLookup_updAcct_ne _ _ _ _ hjB]
  · have hud1' : get_user_data (start ud B (some A)) B = start ud B (some A) :=
      assocLookup_get_user_data_of_some _ B _ hlookB
    conv_lhs => rw [start]
    dsimp only
    rw [hud1', hlookB]
    dsimp only
    rw [if_pos ⟨hAne, hAB⟩]
    rw [if_neg (by simp)]

/-- Concrete two-account ledger for the C10 witness. -/
def udC10 : Ledger := [("A", defaultAccount), ("B", defaultAccount)]

/-- Witness for C10 at a concrete ledger: the bonus is exactly 0.04 and
replaying the start event is a no-op. -/
theorem start_referral_signup_bonus_witness :
    (assocLookup (start udC10 "B" (some "A")) "A" =
      some { defaultAccount with
        referrals := ["B"]
        main_balance_usdt := 1/25
        referral_earnings := 1/25 }) ∧
    start (start udC10 "B" (some "A")) "B" (some "A") =
      start udC10 "B" (some "A") := by
  have h := start_referral_signup_bonus udC10 "A" "B" defaultAccount
    defaultAccount rfl rfl (by simp) (by simp) rfl (by simp [defaultAccount])
  refine ⟨?_, h.2.2.2⟩
  rw [h.2.1]
  norm_num [defaultAccount]

end BGT
